import Mathlib

/-!
Shallow embedding of the `pac` package manager (a Vim plugin manager written
in Rust) and proofs about its installation/reconciliation engine.

The embedding covers:
  * the `Package` data model and its path computation (`src/package.rs`),
  * `idname_from_remote` (`src/package.rs`),
  * YAML (de)serialization of package records (`from_yaml` / `into_yaml`),
  * manifest loading (`fetch` / `fetch_from_paconfig`),
  * the install command's merge, execute, purge and persist pipeline
    (`src/cmd/install.rs`).

Filesystem state, the external git clone operation, and the worker pool are
modelled as explicit oracles/parameters so the otherwise-imperative code
becomes pure state passing.
-/

namespace Pac

/-- A filesystem path, modelled as its list of components relative to the
`VIM_PACKAGE_DIR` base directory (the base itself comes from the environment
and is the same for every package, so it is dropped from the model). -/
abbrev FsPath := List String

/-- Splits a list of characters on a separator, keeping empty segments,
exactly as Rust's `str::split(sep)` does (always at least one segment). -/
def splitChar (sep : Char) : List Char → List (List Char)
  | [] => [[]]
  | c :: rest =>
    let r := splitChar sep rest
    if c = sep then [] :: r
    else
      match r with
      | [] => [[c]]
      | g :: gs => (c :: g) :: gs

/-- `str::split('/')`, the split used by `idname_from_remote`. -/
def splitSlash (s : List Char) : List (List Char) :=
  splitChar '/' s

/-- Joins character-list segments with `'/'`, as Rust's `join("/")`. -/
def joinSlash : List (List Char) → List Char
  | [] => []
  | [g] => g
  | g :: g' :: gs => g ++ '/' :: joinSlash (g' :: gs)

/-- Reference kinds a package can be pinned to.
Modelled from the spec: `GitReference` lives in the repository's `git` module,
which is not under `src/`; per the spec a reference is one of
branch/tag/commit together with a value. -/
inductive RefKind where
  | branch
  | tag
  | commit
deriving DecidableEq, Repr

/-- The string the reference kind displays as (used as the YAML `ref` key). -/
def RefKind.toStr : RefKind → String
  | .branch => "branch"
  | .tag => "tag"
  | .commit => "commit"

/-- A pinned git reference (branch, tag or commit plus its value).
Modelled from the spec: the `git` module is not under `src/`. -/
structure GitReference where
  kind : RefKind
  value : String
deriving DecidableEq, Repr

/-- Errors of the program. Modelled from the spec's error taxonomy and the
uses visible in `src/`: the `Error` enum itself lives outside `src/`. -/
inductive Error where
  | format
  | paconfigFile (msg : String)
  | pluginInstalled (path : FsPath)
  | build (stderr : String)
  | git (msg : String)
  | io (msg : String)
deriving DecidableEq, Repr

/-- Modelled from the spec: `GitReference::new(kind, value)` of the missing
`git` module parses the reference-kind string; an unrecognized kind is a
format error. -/
def GitReference.new (kind value : String) : Except Error GitReference :=
  if kind = "branch" then .ok ⟨.branch, value⟩
  else if kind = "tag" then .ok ⟨.tag, value⟩
  else if kind = "commit" then .ok ⟨.commit, value⟩
  else .error .format

/-- One managed plugin, after `struct Package` in `src/package.rs`. -/
structure Package where
  /-- Name of the local directory where the plugin is installed. -/
  name : String
  /-- `username/repo` derived from the remote, display only. -/
  idname : String
  /-- Remote url of the repo to git clone from. -/
  remote : String
  /-- The branch, tag, or commit to checkout. -/
  reference : Option GitReference
  /-- Install package under `pack/<category>/`. -/
  category : String
  opt : Bool
  /-- Load this package on this command. -/
  load_command : Option String
  /-- Load this package for these types. -/
  for_types : List String
  /-- Build command for this package. -/
  build_command : Option String
deriving DecidableEq, Repr

/-- `Package::idname_from_remote`: splits the remote on `'/'` and joins the
last two segments with `'/'`. The Rust code indexes
`parts[parts.len() - 2..]`; when the remote has fewer than two segments the
`usize` subtraction underflows and the slice index panics, which the embedding
models as `none`. -/
def Package.idname_from_remote (remote : String) : Option String :=
  let parts := splitSlash remote.data
  if 2 ≤ parts.length then
    some ⟨joinSlash (parts.drop (parts.length - 2))⟩
  else
    none

/-- `Package::path`: `VIM_PACKAGE_DIR/<category>/(opt|start)/<name>`, relative
to `VIM_PACKAGE_DIR`. -/
def Package.path (p : Package) : FsPath :=
  if p.opt then [p.category, "opt", p.name]
  else [p.category, "start", p.name]

/-- `Package::is_installed`: the computed path exists as a directory; the
filesystem is the `isDir` oracle. -/
def Package.is_installed (isDir : FsPath → Bool) (p : Package) : Bool :=
  isDir p.path

/-- `Package::set_category`. -/
def Package.set_category (p : Package) (cat : String) : Package :=
  { p with category := cat }

/-- `Package::set_opt`. -/
def Package.set_opt (p : Package) (opt : Bool) : Package :=
  { p with opt := opt }

/-- `Package::set_types`. -/
def Package.set_types (p : Package) (types : List String) : Package :=
  { p with for_types := types }

/-!
## YAML values

The manifest is persisted as YAML through the `yaml-rust` crate, which the
spec treats as an opaque encode/decode contract; the embedding models the
structured `Yaml` values the two sides of `src/package.rs` exchange.
Scalar construction (`Yaml::from_str` on key and value strings) is modelled
as the string constructor, and `Yaml::Boolean` as the boolean constructor.
The `BAD_VALUE` sentinel returned by a failed index is `badValue`.
-/

inductive Yaml where
  | string (s : String)
  | boolean (b : Bool)
  | array (elems : List Yaml)
  | hash (entries : List (String × Yaml))
  | badValue
deriving Repr

/-- `Yaml::as_str`. -/
def Yaml.as_str : Yaml → Option String
  | .string s => some s
  | _ => none

/-- `Yaml::as_bool`. -/
def Yaml.as_bool : Yaml → Option Bool
  | .boolean b => some b
  | _ => none

/-- `Yaml::as_vec`. -/
def Yaml.as_vec : Yaml → Option (List Yaml)
  | .array xs => some xs
  | _ => none

/-- `Yaml::as_hash` (entries of a `LinkedHashMap` in insertion order; all keys
the program ever writes or probes are strings, so keys are `String`s). -/
def Yaml.as_hash : Yaml → List (String × Yaml) ⊕ Unit
  | .hash xs => .inl xs
  | _ => .inr ()

/-- First value stored under `key`, in insertion order. -/
def lookupStr (key : String) : List (String × Yaml) → Option Yaml
  | [] => none
  | (k, v) :: rest => if k = key then some v else lookupStr key rest

/-- Hash lookup in insertion order (the `Index<&str>` impl of `Yaml`: on a
hash it looks the key up, otherwise and on a missing key it yields
`BAD_VALUE`). -/
def Yaml.idx (y : Yaml) (key : String) : Yaml :=
  match y with
  | .hash entries =>
    match lookupStr key entries with
    | some v => v
    | none => .badValue
  | _ => .badValue

/-- `LinkedHashMap::insert`: replaces the value of an existing key in place,
otherwise appends the new entry. -/
def hashInsert (entries : List (String × Yaml)) (key : String) (v : Yaml) :
    List (String × Yaml) :=
  match entries with
  | [] => [(key, v)]
  | (k, w) :: rest =>
    if k = key then (k, v) :: rest
    else (k, w) :: hashInsert rest key v

/-- Reads a required string field: missing or ill-typed is a format error
(the `as_str ... ok_or(Error::Format)` pattern of `from_yaml`). -/
def parseStrField (doc : Yaml) (key : String) : Except Error String :=
  match (doc.idx key).as_str with
  | some s => .ok s
  | none => .error .format

/-- Reads the required boolean `opt` field of `from_yaml`. -/
def parseBoolField (doc : Yaml) (key : String) : Except Error Bool :=
  match (doc.idx key).as_bool with
  | some b => .ok b
  | none => .error .format

/-- Reads the optional single-entry `ref` mapping of `from_yaml`: an empty
mapping is a format error; the first entry's key/value feed
`GitReference::new`. -/
def parseRef (doc : Yaml) : Except Error (Option GitReference) :=
  match (doc.idx "ref").as_hash with
  | .inr () => .ok none
  | .inl subdoc =>
    match subdoc.head? with
    | none => .error .format
    | some (reftype, refval) =>
      match refval.as_str with
      | none => .error .format
      | some v =>
        match GitReference.new reftype v with
        | .ok r => .ok (some r)
        | .error e => .error e

/-- The element loop inside the `for` parsing of `from_yaml`: every element
must be a string, the first non-string aborts with a format error. -/
def parseTypeList : List Yaml → Except Error (List String)
  | [] => .ok []
  | e :: rest =>
    match e.as_str with
    | none => .error .format
    | some s =>
      match parseTypeList rest with
      | .error er => .error er
      | .ok l => .ok (s :: l)

/-- Reads the optional `for` list of `from_yaml`; an absent key is the empty
list. -/
def parseTypes (doc : Yaml) : Except Error (List String) :=
  match (doc.idx "for").as_vec with
  | some f => parseTypeList f
  | none => .ok []

/-- `Package::from_yaml` (`src/package.rs`): parse a `Package` from a single
list item of the paconfig file; any missing or ill-typed required field is a
format error. The outer `Option` layer models a Rust panic (`none`): after
all fields parse, the constructor computes `idname_from_remote(&remote)`,
which panics on a remote with fewer than two `/`-separated segments. -/
def Package.from_yaml (doc : Yaml) : Option (Except Error Package) :=
  match (do
      let name ← parseStrField doc "name"
      let remote ← parseStrField doc "remote"
      let reference ← parseRef doc
      let opt ← parseBoolField doc "opt"
      let category ← parseStrField doc "category"
      let cmd := (doc.idx "on").as_str
      let build := (doc.idx "build").as_str
      let types ← parseTypes doc
      Except.ok (name, remote, reference, opt, category, cmd, build, types) :
      Except Error _) with
  | .error e => some (.error e)
  | .ok (name, remote, reference, opt, category, cmd, build, types) =>
    match Package.idname_from_remote remote with
    | none => none
    | some idname =>
      some (.ok { name, idname, remote, reference, category, opt,
                  load_command := cmd, for_types := types,
                  build_command := build })

/-- `Package::into_yaml` (`src/package.rs`): the record as a manifest list
item; `reference`, `on`, `build` are omitted when absent and `for` when
empty. -/
def Package.into_yaml (p : Package) : Yaml :=
  let doc := hashInsert [] "name" (.string p.name)
  let doc := hashInsert doc "remote" (.string p.remote)
  let doc := hashInsert doc "category" (.string p.category)
  let doc := hashInsert doc "opt" (.boolean p.opt)
  let doc := match p.reference with
    | some gitref => hashInsert doc "ref" (.hash [(gitref.kind.toStr, .string gitref.value)])
    | none => doc
  let doc := match p.load_command with
    | some c => hashInsert doc "on" (.string c)
    | none => doc
  let doc := match p.build_command with
    | some c => hashInsert doc "build" (.string c)
    | none => doc
  let doc :=
    if p.for_types.isEmpty then doc
    else hashInsert doc "for" (.array (p.for_types.map .string))
  Yaml.hash doc

/-!
## Manifest store

`fetch` reads the paconfig file. Its input is modelled as
`Option (Except Error (List Yaml))`: `none` when `PAC_CONFIG_FILE` is not a
file, `some (.error e)` when reading or YAML-scanning the file fails, and
`some (.ok docs)` for the parsed list of YAML documents. A `none` result
again models a Rust panic.
-/

/-- Modelled from the spec: the `Display` text of an `Error` (the `Error`
enum and its `Display` impl live outside `src/`); the exact text is
irrelevant to the claims, only that the wrapped error is a `PaconfigFile`
error. -/
def describeError : Error → String
  | .format => "package format error"
  | .paconfigFile m => m
  | .pluginInstalled _ => "plugin already installed"
  | .build m => m
  | .git m => m
  | .io m => m

/-- The `map_err` wrapper of `fetch`. -/
def wrapPaconfig (e : Error) : Error :=
  .paconfigFile ("Fail to parse paconfig: " ++ describeError e)

/-- The per-entry loop of `fetch_from_paconfig`: parse every list item,
aborting at the first error (`Package::from_yaml(d)?`), a panic propagating
as `none`. -/
def fetch_from_docs : List Yaml → Option (Except Error (List Package))
  | [] => some (.ok [])
  | d :: rest =>
    match Package.from_yaml d with
    | none => none
    | some (.error e) => some (.error e)
    | some (.ok p) =>
      match fetch_from_docs rest with
      | none => none
      | some (.error e) => some (.error e)
      | some (.ok ps) => some (.ok (p :: ps))

/-- `fetch_from_paconfig` (`src/package.rs`), after the file has been read
and YAML-scanned into `docs`: an empty document list, or a first document
that is not a list, yields the empty package list. -/
def fetch_from_paconfig (docs : List Yaml) : Option (Except Error (List Package)) :=
  match docs with
  | [] => some (.ok [])
  | d :: _ =>
    match d.as_vec with
    | some entries => fetch_from_docs entries
    | none => some (.ok [])

/-- `fetch` (`src/package.rs`): no paconfig file means an empty list; any
error from reading/parsing is wrapped in `Error::PaconfigFile`. -/
def fetch (file : Option (Except Error (List Yaml))) :
    Option (Except Error (List Package)) :=
  match file with
  | none => some (.ok [])
  | some (.error e) => some (.error (wrapPaconfig e))
  | some (.ok docs) =>
    match fetch_from_paconfig docs with
    | none => none
    | some (.error e) => some (.error (wrapPaconfig e))
    | some (.ok ps) => some (.ok ps)

/-!
## Install command (`src/cmd/install.rs`)

The filesystem is the `isDir` oracle; the external `git::clone` operation is
the `clone` oracle, a function of exactly the two arguments the call site
passes it. `do_install` additionally returns the list of clone invocations
it performed, so theorems can speak about which external calls were made.
-/

/-- One invocation of the external `git::clone` operation, carrying exactly
the arguments the `do_install` call site passes: `git::clone(&pack.name,
&path)`. -/
structure CloneCall where
  source : String
  dest : FsPath
deriving DecidableEq, Repr

/-- `clone_info` of `impl GitRepo for Package` (`src/package.rs`): the
remote, the computed path, and the optional reference. -/
def Package.clone_info (p : Package) : String × FsPath × Option GitReference :=
  (p.remote, p.path, p.reference)

/-- `do_install` (`src/cmd/install.rs`): if the computed path is already a
directory, fail with `Error::plugin_installed(&path)` without invoking the
clone operation; otherwise invoke `git::clone(&pack.name, &path)` and return
its result, recording the call. -/
def do_install (isDir : FsPath → Bool) (clone : String → FsPath → Except Error Unit)
    (pack : Package) : Except Error Unit × List CloneCall :=
  let path := pack.path
  if isDir path then
    (.error (.pluginInstalled path), [])
  else
    (clone pack.name path, [{ source := pack.name, dest := path }])

/-- `install_plugin` (`src/cmd/install.rs`): runs `do_install` and derives
the continue flag: `PluginInstalled` and success keep the record
(`true`), any other error marks it for purging (`false`). -/
def install_plugin (isDir : FsPath → Bool) (clone : String → FsPath → Except Error Unit)
    (pack : Package) : Except Error Unit × Bool :=
  let res := (do_install isDir clone pack).1
  let status :=
    match res with
    | .error (.pluginInstalled _) => true
    | .error _ => false
    | .ok _ => true
  (res, status)

/-- Modelled from the spec: the worker-pool executor (`TaskManager` of the
repository's `task` module, not under `src/`) applies `op` once to every
added package — one package's failure neither aborts nor blocks the others —
and returns the names of exactly those packages whose continue flag was
`false`. -/
def taskManagerRun (queue : List Package) (op : Package → Except Error Unit × Bool) :
    List String :=
  (queue.filter (fun p => !(op p).2)).map Package.name

/-- The not-yet-installed branch of the merge loop (lines 103–107 of
`install.rs`): the existing record `x` adopts the requested record's
category, opt, types, load command and build command. -/
def mergeUpdateExisting (x pack : Package) : Package :=
  ((((x.set_category pack.category).set_opt pack.opt).set_types pack.for_types)
    |> fun y => { y with load_command := pack.load_command,
                         build_command := pack.build_command })

/-- The already-installed branch of the merge loop (lines 110–111 of
`install.rs`): the requested record adopts the existing record's category
and opt. -/
def mergeAdoptPlacement (pack x : Package) : Package :=
  (pack.set_category x.category).set_opt x.opt

/-- The `packs.iter_mut().find(|x| x.name == pack.name)` mutation of the
merge loop: walks the existing list, and at the first record with a matching
name applies the branch for its installed state; returns the updated list,
the (possibly placement-adopted) requested record, and the `having` flag. -/
def mergeFind (isDir : FsPath → Bool) :
    List Package → Package → List Package × Package × Bool
  | [], pack => ([], pack, false)
  | x :: rest, pack =>
    if x.name = pack.name then
      if !x.is_installed isDir then
        (mergeUpdateExisting x pack :: rest, pack, true)
      else
        (x :: rest, mergeAdoptPlacement pack x, true)
    else
      let (rest', pack', having) := mergeFind isDir rest pack
      (x :: rest', pack', having)

/-- One iteration of the merge loop (lines 99–121 of `install.rs`): when no
existing record matches, the requested record is appended
(`packs.push(pack.clone())`); the second component is the record handed to
`manager.add`. -/
def mergeOne (isDir : FsPath → Bool) (packs : List Package) (pack : Package) :
    List Package × Package :=
  let (packs', pack', having) := mergeFind isDir packs pack
  (if having then packs' else packs' ++ [pack'], pack')

/-- The whole merge loop over the requested records: returns the merged
manifest list and the queue handed to the task manager, in order. -/
def mergeAll (isDir : FsPath → Bool) (packs : List Package) (targets : List Package) :
    List Package × List Package :=
  targets.foldl
    (fun acc t =>
      let (packs', t') := mergeOne isDir acc.1 t
      (packs', acc.2 ++ [t']))
    (packs, [])

/-- The purge loop of `install_plugins`: for every failed name,
`packs.retain(|e| e.name != fail)`. -/
def purgeFails (packs : List Package) (fails : List String) : List Package :=
  fails.foldl (fun ps fail => ps.filter (fun e => e.name ≠ fail)) packs

/-- `packs.sort_by(|a, b| a.name.cmp(&b.name))`: a stable sort of the list
by package name. -/
def sortByName (packs : List Package) : List Package :=
  packs.insertionSort (fun a b => a.name ≤ b.name)

/-- `install_plugins` (`src/cmd/install.rs`), given the records already
fetched from the manifest and the requested records the caller constructed
(empty when no names were passed, in which case the whole existing list is
re-queued): merge, run the installs, purge the failures, and sort by name;
the result is the list handed to `package::save`. -/
def install_plugins (isDir : FsPath → Bool)
    (clone : String → FsPath → Except Error Unit)
    (existing : List Package) (targets : List Package) : List Package :=
  let (merged, queue) :=
    if targets.isEmpty then (existing, existing)
    else mergeAll isDir existing targets
  sortByName (purgeFails merged (taskManagerRun queue (install_plugin isDir clone)))

/-!
## The `exec` entry point of the install command

`exec` resolves the thread count, rejects a count below one with `die!`
(stderr message plus `process::exit(1)`) before touching the manifest or the
filesystem, and otherwise runs `install_plugins`. The returned trace lists
the side effects in order, so "no side effect before the check" is a
statement about the trace.
-/

/-- The parsed command-line arguments (`struct InstallArgs`). -/
structure InstallArgs where
  plugins : List String
  onCmd : Option String
  forTypes : Option String
  threads : Option Nat
  opt : Bool
  category : String
  build : Option String
deriving Repr

/-- `struct Plugins` of `install.rs`. -/
structure Plugins where
  names : List String
  category : String
  opt : Bool
  onCmd : Option String
  types : Option (List String)
  build : Option String
  threads : Nat
deriving Repr

/-- `args.for_.map(|e| e.split(',').map(to_string).collect())`. -/
def commaTypes (s : String) : List String :=
  (splitChar ',' s.data).map fun g => ⟨g⟩

/-- Modelled from the spec: `install.rs` constructs each requested record
with a three-argument `Package::new(name, category, opt)` that the
`src/package.rs` in `src/` does not declare (its `new` takes five
arguments); per the spec a requested record is freshly constructed from the
caller-supplied name/category/opt with no pinned reference, and the name is
what the install operation later hands to the clone primitive as its source,
so the name stands in for the remote. -/
def Package.new3 (name category : String) (opt : Bool) : Package :=
  { name, idname := name, remote := name, reference := none, category, opt,
    load_command := none, for_types := [], build_command := none }

/-- One requested record, per lines 86–98 of `install.rs`: the flags shared
by the request are applied to the freshly constructed package. -/
def mkTarget (pl : Plugins) (n : String) : Package :=
  let p := Package.new3 n pl.category pl.opt
  let p := match pl.onCmd with
    | some c => { p with load_command := some c }
    | none => p
  let p := match pl.types with
    | some t => p.set_types t
    | none => p
  match pl.build with
  | some c => { p with build_command := some c }
  | none => p

/-- An observable side effect of an install run, in order of occurrence. -/
inductive Effect where
  | manifestRead
  | cloneInvoked (c : CloneCall)
  | pluginScriptWrite
  | manifestWrite
deriving DecidableEq, Repr

/-- How an `exec` run ends: `exited c` models `process::exit(c)` (`die!`, or
exit code 101 for a Rust panic); `completed` carries the persisted
manifest. -/
inductive ExecOutcome where
  | exited (code : Nat)
  | completed (manifest : List Package)
deriving Repr

/-- `exec` (`src/cmd/install.rs`): resolve the thread count (defaulting to
the machine's CPU count), `die!` with exit code 1 when it is below one, and
otherwise run `install_plugins` — manifest load, merge, clone executions,
purge, sort, and the two persisted writes. -/
def exec (cpus : Nat) (args : InstallArgs)
    (file : Option (Except Error (List Yaml)))
    (isDir : FsPath → Bool) (clone : String → FsPath → Except Error Unit) :
    ExecOutcome × List Effect :=
  let threads := args.threads.getD cpus
  if threads < 1 then
    (.exited 1, [])
  else
    let opt := args.onCmd.isSome || args.forTypes.isSome || args.opt
    let types := args.forTypes.map commaTypes
    let pl : Plugins :=
      { names := args.plugins, category := args.category, opt,
        onCmd := args.onCmd, types, build := args.build, threads }
    match fetch file with
    | none => (.exited 101, [.manifestRead])
    | some (.error _) => (.exited 1, [.manifestRead])
    | some (.ok packs) =>
      let targets := pl.names.map (mkTarget pl)
      let queue :=
        if targets.isEmpty then packs
        else (mergeAll isDir packs targets).2
      let cloneCalls := queue.flatMap (fun p => (do_install isDir clone p).2)
      let final := install_plugins isDir clone packs targets
      (.completed final,
        .manifestRead :: cloneCalls.map .cloneInvoked
          ++ [.pluginScriptWrite, .manifestWrite])

/-!
## Concrete fixtures used by witnesses and counterexamples
-/

/-- A package whose name differs from its remote and which pins a branch. -/
def namedPack : Package :=
  { name := "myplug", idname := "user/repo",
    remote := "https://github.com/user/repo",
    reference := some ⟨.branch, "dev"⟩, category := "colors", opt := false,
    load_command := none, for_types := [], build_command := none }

/-- A filesystem with no directories at all. -/
def noDirs : FsPath → Bool := fun _ => false

/-- A clone oracle that always succeeds. -/
def cloneOk : String → FsPath → Except Error Unit := fun _ _ => .ok ()

/-- Concrete arguments configuring zero threads. -/
def zeroThreadArgs : InstallArgs :=
  { plugins := ["foo"], onCmd := none, forTypes := none, threads := some 0,
    opt := false, category := "", build := none }

/-- An existing manifest record for the package `foo`, installed under
`plugins/start/foo`, with no trigger attributes. -/
def installedX : Package :=
  { name := "foo", idname := "u/foo", remote := "https://github.com/u/foo",
    reference := none, category := "plugins", opt := false,
    load_command := none, for_types := [], build_command := none }

/-- A fresh request for `foo` with a different category/opt and freshly
requested trigger attributes. -/
def requestQ : Package :=
  { name := "foo", idname := "foo", remote := "foo", reference := none,
    category := "newcat", opt := true, load_command := some "MyCmd",
    for_types := ["rust"], build_command := some "make" }

/-- A filesystem in which exactly `installedX`'s computed path is a
directory. -/
def fsInstalledFoo : FsPath → Bool :=
  fun path => path == ["plugins", "start", "foo"]

/-- The record the merge hands to the installer for `requestQ` against the
installed `installedX`: the request with the existing placement adopted. -/
def adoptedFoo : Package :=
  { requestQ with category := "plugins", opt := false }

/-- A clone oracle that fails with a git error for every invocation. -/
def cloneFailGit : String → FsPath → Except Error Unit :=
  fun _ _ => .error (.git "network down")

/-- A manifest entry (`doc`) lacking one of the four required fields
(`name`, `remote`, `opt`, `category`) — it is missing or not of the type
`from_yaml` demands. -/
def missingRequired (doc : Yaml) : Prop :=
  (doc.idx "name").as_str = none ∨ (doc.idx "remote").as_str = none ∨
  (doc.idx "opt").as_bool = none ∨ (doc.idx "category").as_str = none

/-- A manifest entry with a remote but no `name` field. -/
def namelessEntry : Yaml :=
  Yaml.hash [("remote", .string "https://github.com/u/r")]

/-- A record whose remote has no `'/'` at all (a single split segment). -/
def slashlessPack : Package :=
  { name := "x", idname := "x", remote := "x", reference := none,
    category := "plugins", opt := false, load_command := none,
    for_types := [], build_command := none }

/-!
## Properties of the character splitter
-/

theorem splitChar_ne_nil (sep : Char) (s : List Char) : splitChar sep s ≠ [] := by
  cases s with
  | nil => simp [splitChar]
  | cons c rest =>
    simp only [splitChar]
    split
    · simp
    · split <;> simp_all

theorem splitChar_of_not_mem (sep : Char) (s : List Char) (h : sep ∉ s) :
    splitChar sep s = [s] := by
  induction s with
  | nil => rfl
  | cons c rest ih =>
    have hc : c ≠ sep := fun hcs => h (hcs ▸ List.mem_cons_self c rest)
    have hrest : sep ∉ rest := fun hm => h (List.mem_cons_of_mem c hm)
    simp only [splitChar, ih hrest, if_neg hc]

theorem splitChar_append_sep (sep : Char) (a t : List Char) (h : sep ∉ a) :
    splitChar sep (a ++ sep :: t) = a :: splitChar sep t := by
  induction a with
  | nil => simp [splitChar]
  | cons c a' ih =>
    have hc : c ≠ sep := fun hcs => h (hcs ▸ List.mem_cons_self c a')
    have ha' : sep ∉ a' := fun hm => h (List.mem_cons_of_mem c hm)
    simp only [List.cons_append, splitChar, List.append_eq, ih ha', if_neg hc]

theorem not_mem_of_mem_splitChar (sep : Char) (s g : List Char)
    (h : g ∈ splitChar sep s) : sep ∉ g := by
  induction s generalizing g with
  | nil =>
    simp [splitChar] at h
    simp [h]
  | cons c rest ih =>
    simp only [splitChar] at h
    by_cases hc : c = sep
    · rw [if_pos hc] at h
      rcases List.mem_cons.mp h with h0 | h0
      · simp [h0]
      · exact ih g h0
    · rw [if_neg hc] at h
      rcases hr : splitChar sep rest with _ | ⟨g', gs⟩
      · exact absurd hr (splitChar_ne_nil sep rest)
      · rw [hr] at h
        rcases List.mem_cons.mp h with h0 | h0
        · subst h0
          intro hmem
          rcases List.mem_cons.mp hmem with h1 | h1
          · exact hc h1.symm
          · exact ih g' (hr ▸ List.mem_cons_self g' gs) h1
        · exact ih g (hr ▸ List.mem_cons_of_mem g' h0)

theorem splitSlash_joinSlash (gs : List (List Char)) (h0 : gs ≠ [])
    (h : ∀ g ∈ gs, '/' ∉ g) : splitSlash (joinSlash gs) = gs := by
  induction gs with
  | nil => exact absurd rfl h0
  | cons g rest ih =>
    cases rest with
    | nil =>
      exact splitChar_of_not_mem '/' g (h g (List.mem_cons_self g []))
    | cons g' rest' =>
      have hg : '/' ∉ g := h g (List.mem_cons_self g _)
      have hrest : ∀ x ∈ g' :: rest', '/' ∉ x :=
        fun x hx => h x (List.mem_cons_of_mem g hx)
      calc splitSlash (joinSlash (g :: g' :: rest'))
          = splitChar '/' (g ++ '/' :: joinSlash (g' :: rest')) := rfl
        _ = g :: splitChar '/' (joinSlash (g' :: rest')) :=
            splitChar_append_sep '/' g _ hg
        _ = g :: g' :: rest' := by
            rw [show splitChar '/' (joinSlash (g' :: rest'))
                  = splitSlash (joinSlash (g' :: rest')) from rfl,
               ih (by simp) hrest]

/-- C8: `idname_from_remote` splits the remote on `'/'` and returns the last
two segments joined with `'/'`; but for a remote with fewer than two
segments it does NOT return a garbage string — the `parts[parts.len() - 2..]`
index underflows and the function panics (modelled as `none`). The original
claim's "it never panics" is refuted at the concrete remote `"abc"`, whose
split has a single segment. -/
theorem idname_from_remote_panics_on_short_remote :
    Package.idname_from_remote "abc" = none ∧
    (splitSlash "abc".data).length = 1 := by
  constructor <;> rfl

/-- C8 (amended): `idname_from_remote` splits the remote on `'/'`; with at
least two segments it returns the last two segments joined with `'/'` (split
back, the result is exactly those two segments); with fewer than two
segments it panics (`none`) instead of returning. -/
theorem idname_from_remote_last_two_segments (remote : String) :
    ((splitSlash remote.data).length < 2 →
      Package.idname_from_remote remote = none) ∧
    (2 ≤ (splitSlash remote.data).length →
      ∃ idn, Package.idname_from_remote remote = some idn ∧
        splitSlash idn.data =
          (splitSlash remote.data).drop ((splitSlash remote.data).length - 2)) := by
  constructor
  · intro hlt
    unfold Package.idname_from_remote
    rw [if_neg (by omega)]
  · intro hge
    refine ⟨⟨joinSlash ((splitSlash remote.data).drop
      ((splitSlash remote.data).length - 2))⟩, ?_, ?_⟩
    · unfold Package.idname_from_remote
      rw [if_pos hge]
    · have hlen : ((splitSlash remote.data).drop
          ((splitSlash remote.data).length - 2)).length = 2 := by
        rw [List.length_drop]
        omega
      refine splitSlash_joinSlash _ (by intro hnil; rw [hnil] at hlen; simp at hlen) ?_
      intro g hg
      exact not_mem_of_mem_splitChar '/' remote.data g (List.drop_subset _ _ hg)

/-!
## The clone call site (C2)

`impl GitRepo for Package` in `src/package.rs` supplies the clone collaborator
with `(remote, path, reference)`, and the `Package` field docs describe
`remote` as the url to clone from and `reference` as what to checkout; the
`do_install` call site instead passes the package *name* and no reference.
-/

/-- C2, evaluated at the failing input: for a package whose target path does
not exist, `do_install` performs exactly one clone invocation, and that
invocation passes the package *name* (`"myplug"`) as the source and no
reference — not the record's remote/path/reference triple that `clone_info`
provides, whose remote differs from the name. -/
theorem do_install_clones_name_not_remote :
    (do_install noDirs cloneOk namedPack).2 =
      [{ source := "myplug", dest := ["colors", "start", "myplug"] }] ∧
    namedPack.clone_info =
      ("https://github.com/user/repo", ["colors", "start", "myplug"],
        some ⟨.branch, "dev"⟩) ∧
    (do_install noDirs cloneOk namedPack).2.map CloneCall.source ≠
      [namedPack.clone_info.1] := by
  refine ⟨rfl, rfl, ?_⟩
  decide

/-!
## Zero worker threads (C9)
-/

/-- C9: a configured thread count below one (zero) makes the install command
exit with code 1 before any side effect: the effect trace is empty — no
manifest read, no clone, no write. -/
theorem exec_rejects_zero_threads (cpus : Nat) (args : InstallArgs)
    (file : Option (Except Error (List Yaml)))
    (isDir : FsPath → Bool) (clone : String → FsPath → Except Error Unit)
    (h : args.threads = some 0) :
    exec cpus args file isDir clone = (.exited 1, []) := by
  simp [exec, h]

/-- Witness for C9: with zero threads configured, the run exits 1 with an
empty effect trace. -/
theorem exec_rejects_zero_threads_witness :
    exec 8 zeroThreadArgs none noDirs cloneOk = (.exited 1, []) :=
  exec_rejects_zero_threads 8 zeroThreadArgs none noDirs cloneOk rfl

/-!
## Non-list manifest top level (C10)
-/

/-- C10: a manifest file that scans to zero YAML documents, or whose first
document is not a list (a scalar or a mapping), loads as the empty package
list with no error. -/
theorem fetch_non_list_top_level :
    (fetch (some (.ok [])) = some (.ok [])) ∧
    (∀ (y : Yaml) (docs' : List Yaml), y.as_vec = none →
      fetch (some (.ok (y :: docs'))) = some (.ok [])) := by
  refine ⟨rfl, fun y docs' h => ?_⟩
  simp [fetch, fetch_from_paconfig, h]

/-- Witness for C10 at a scalar top level. -/
theorem fetch_non_list_top_level_witness :
    fetch (some (.ok [Yaml.string "x"])) = some (.ok []) :=
  fetch_non_list_top_level.2 (Yaml.string "x") [] rfl

/-- Witness for the amended C8 at the remote of the repository's own unit
test: `username/repo` is returned for a well-formed GitHub remote. -/
theorem idname_from_remote_last_two_segments_witness :
    2 ≤ (splitSlash "https://github.com/username/repo".data).length ∧
    (∃ idn, Package.idname_from_remote "https://github.com/username/repo" = some idn ∧
      splitSlash idn.data =
        (splitSlash "https://github.com/username/repo".data).drop
          ((splitSlash "https://github.com/username/repo".data).length - 2)) ∧
    Package.idname_from_remote "https://github.com/username/repo" = some "username/repo" :=
  ⟨by decide,
   (idname_from_remote_last_two_segments "https://github.com/username/repo").2 (by decide),
   by decide⟩

/-!
## The merge loop (C1, C3)
-/

theorem mergeFind_installed (isDir : FsPath → Bool) (pre : List Package)
    (x : Package) (post : List Package) (pack : Package)
    (hpre : ∀ y ∈ pre, y.name ≠ pack.name) (hx : x.name = pack.name)
    (hinst : x.is_installed isDir = true) :
    mergeFind isDir (pre ++ x :: post) pack =
      (pre ++ x :: post, mergeAdoptPlacement pack x, true) := by
  induction pre with
  | nil =>
    simp only [List.nil_append, mergeFind, if_pos hx, hinst]
    rfl
  | cons y pre' ih =>
    have hy : y.name ≠ pack.name := hpre y (List.mem_cons_self y pre')
    have hpre' : ∀ z ∈ pre', z.name ≠ pack.name :=
      fun z hz => hpre z (List.mem_cons_of_mem y hz)
    simp only [List.cons_append, mergeFind, List.append_eq, if_neg hy, ih hpre']

theorem mergeFind_not_installed (isDir : FsPath → Bool) (pre : List Package)
    (x : Package) (post : List Package) (pack : Package)
    (hpre : ∀ y ∈ pre, y.name ≠ pack.name) (hx : x.name = pack.name)
    (hninst : x.is_installed isDir = false) :
    mergeFind isDir (pre ++ x :: post) pack =
      (pre ++ mergeUpdateExisting x pack :: post, pack, true) := by
  induction pre with
  | nil =>
    simp only [List.nil_append, mergeFind, if_pos hx, hninst]
    rfl
  | cons y pre' ih =>
    have hy : y.name ≠ pack.name := hpre y (List.mem_cons_self y pre')
    have hpre' : ∀ z ∈ pre', z.name ≠ pack.name :=
      fun z hz => hpre z (List.mem_cons_of_mem y hz)
    simp only [List.cons_append, mergeFind, List.append_eq, if_neg hy, ih hpre']

/-- C1 (amended): when a requested package matches an existing manifest
record that is already installed, the merge leaves the manifest list
*completely unchanged* — the persisted record keeps the existing category and
opt (placement is sticky) and also keeps its existing `load_command`,
`for_types` and `build_command` (the requested trigger attributes are NOT
adopted) — no duplicate is inserted, and the request handed to the installer
adopts the existing record's category and opt. -/
theorem merge_installed_keeps_existing_record (isDir : FsPath → Bool)
    (pre : List Package) (x : Package) (post : List Package) (pack : Package)
    (hpre : ∀ y ∈ pre, y.name ≠ pack.name) (hx : x.name = pack.name)
    (hinst : x.is_installed isDir = true) :
    mergeOne isDir (pre ++ x :: post) pack =
      (pre ++ x :: post, { pack with category := x.category, opt := x.opt }) := by
  unfold mergeOne
  rw [mergeFind_installed isDir pre x post pack hpre hx hinst]
  rfl

/-- Witness for the amended C1: the installed `foo` record survives the merge
byte-for-byte while the request adopts its `plugins`/non-opt placement. -/
theorem merge_installed_keeps_existing_record_witness :
    mergeOne fsInstalledFoo [installedX] requestQ =
      ([installedX], { requestQ with category := "plugins", opt := false }) := by
  have h := merge_installed_keeps_existing_record fsInstalledFoo [] installedX []
    requestQ (by simp) rfl rfl
  simpa using h

/-- C1 (counterexample to the original claim): running the whole install
pipeline with an existing installed record `installedX` and a request
`requestQ` for the same name carrying fresh trigger attributes, the persisted
manifest is exactly `[installedX]`: it keeps the old `load_command = none`,
`for_types = []`, `build_command = none` instead of adopting the requested
`some "MyCmd"` / `["rust"]` / `some "make"`. -/
theorem merge_installed_ignores_requested_triggers :
    install_plugins fsInstalledFoo cloneOk [installedX] [requestQ] = [installedX] ∧
    installedX.load_command = none ∧
    installedX.for_types = [] ∧
    installedX.build_command = none ∧
    requestQ.load_command = some "MyCmd" ∧
    requestQ.for_types = ["rust"] ∧
    requestQ.build_command = some "make" := by
  decide

/-- C3: when a requested package matches an existing manifest record that is
NOT yet installed, the existing record's placement (category, opt) and
trigger attributes (`load_command`, `for_types`, `build_command`) are all
overwritten with the requested values (its remote/reference/idname stay), and
no duplicate entry is inserted — the merged list keeps its shape with only
that record replaced. -/
theorem merge_not_installed_overwrites_existing (isDir : FsPath → Bool)
    (pre : List Package) (x : Package) (post : List Package) (pack : Package)
    (hpre : ∀ y ∈ pre, y.name ≠ pack.name) (hx : x.name = pack.name)
    (hninst : x.is_installed isDir = false) :
    mergeOne isDir (pre ++ x :: post) pack =
      (pre ++ { x with category := pack.category, opt := pack.opt,
                       for_types := pack.for_types,
                       load_command := pack.load_command,
                       build_command := pack.build_command } :: post, pack) := by
  unfold mergeOne
  rw [mergeFind_not_installed isDir pre x post pack hpre hx hninst]
  rfl

/-!
## The executor, the purge set, and the persisted manifest (C4, C5)
-/

theorem install_plugins_unfold (isDir : FsPath → Bool)
    (clone : String → FsPath → Except Error Unit)
    (existing targets merged queue : List Package)
    (hmq : (if targets.isEmpty then (existing, existing)
            else mergeAll isDir existing targets) = (merged, queue)) :
    install_plugins isDir clone existing targets =
      sortByName (purgeFails merged
        (taskManagerRun queue (install_plugin isDir clone))) := by
  unfold install_plugins
  rw [hmq]

theorem mem_taskManagerRun (queue : List Package)
    (op : Package → Except Error Unit × Bool) (a : String) :
    a ∈ taskManagerRun queue op ↔
      ∃ q ∈ queue, q.name = a ∧ (op q).2 = false := by
  simp only [taskManagerRun, List.mem_map, List.mem_filter, Bool.not_eq_true',
    Bool.not_eq_eq_eq_not, Bool.not_true]
  constructor
  · rintro ⟨q, ⟨hq, hf⟩, hn⟩
    exact ⟨q, hq, hn, hf⟩
  · rintro ⟨q, hq, hn, hf⟩
    exact ⟨q, ⟨hq, hf⟩, hn⟩

theorem mem_purgeFails (packs : List Package) (fails : List String) (r : Package) :
    r ∈ purgeFails packs fails ↔ r ∈ packs ∧ ∀ f ∈ fails, r.name ≠ f := by
  induction fails generalizing packs with
  | nil => simp [purgeFails]
  | cons f fs ih =>
    simp only [purgeFails, List.foldl_cons] at *
    rw [ih]
    simp only [List.mem_filter, decide_eq_true_eq, List.mem_cons]
    constructor
    · rintro ⟨⟨hr, hne⟩, hall⟩
      exact ⟨hr, fun g hg => hg.elim (fun h0 => h0 ▸ hne) (hall g)⟩
    · rintro ⟨hr, hall⟩
      exact ⟨⟨hr, hall f (.inl rfl)⟩, fun g hg => hall g (.inr hg)⟩

theorem mem_sortByName (packs : List Package) (r : Package) :
    r ∈ sortByName packs ↔ r ∈ packs :=
  (List.perm_insertionSort (fun a b => a.name ≤ b.name) packs).mem_iff

/-- C4: a package whose computed target path already exists as a directory
is not cloned (`do_install` performs no clone invocation), yields the
"already installed" error signal with continue flag `true`, its name never
enters the purge set (given that every queue entry of that name is
installed), and every merged record of that name is retained in the
persisted manifest. -/
theorem already_installed_not_purged (isDir : FsPath → Bool)
    (clone : String → FsPath → Except Error Unit)
    (existing targets merged queue : List Package) (pack : Package)
    (hmq : (if targets.isEmpty then (existing, existing)
            else mergeAll isDir existing targets) = (merged, queue))
    (hdir : isDir pack.path = true)
    (hall : ∀ q ∈ queue, q.name = pack.name → isDir q.path = true) :
    do_install isDir clone pack = (.error (.pluginInstalled pack.path), []) ∧
    install_plugin isDir clone pack = (.error (.pluginInstalled pack.path), true) ∧
    pack.name ∉ taskManagerRun queue (install_plugin isDir clone) ∧
    ∀ r ∈ merged, r.name = pack.name →
      r ∈ install_plugins isDir clone existing targets := by
  have hflag : ∀ q ∈ queue, q.name = pack.name →
      (install_plugin isDir clone q).2 = true := by
    intro q hq hn
    simp [install_plugin, do_install, hall q hq hn]
  have hnot : pack.name ∉ taskManagerRun queue (install_plugin isDir clone) := by
    rw [mem_taskManagerRun]
    rintro ⟨q, hq, hn, hf⟩
    rw [hflag q hq hn] at hf
    simp at hf
  refine ⟨by simp [do_install, hdir], by simp [install_plugin, do_install, hdir], hnot, ?_⟩
  intro r hr hn
  rw [install_plugins_unfold isDir clone existing targets merged queue hmq,
    mem_sortByName, mem_purgeFails]
  refine ⟨hr, fun f hf hrf => ?_⟩
  exact hnot (hn ▸ hrf ▸ hf)

/-- Witness for C4: the already-installed `foo` survives the whole run. -/
theorem already_installed_not_purged_witness :
    do_install fsInstalledFoo cloneOk adoptedFoo =
      (.error (.pluginInstalled adoptedFoo.path), []) ∧
    install_plugin fsInstalledFoo cloneOk adoptedFoo =
      (.error (.pluginInstalled adoptedFoo.path), true) ∧
    adoptedFoo.name ∉
      taskManagerRun [adoptedFoo] (install_plugin fsInstalledFoo cloneOk) ∧
    ∀ r ∈ [installedX], r.name = adoptedFoo.name →
      r ∈ install_plugins fsInstalledFoo cloneOk [installedX] [requestQ] :=
  already_installed_not_purged fsInstalledFoo cloneOk [installedX] [requestQ]
    [installedX] [adoptedFoo] adoptedFoo (by decide) (by decide) (by decide)

/-- C5: a package whose clone operation fails with any error other than
"already installed" gets continue flag `false`, its name enters the purge
set, no record of that name survives into the persisted manifest, and the
failure does not disturb the other packages: purge-set membership of every
other name is exactly what the batch without the failing package would
produce. -/
theorem clone_failure_purges_package (isDir : FsPath → Bool)
    (clone : String → FsPath → Except Error Unit)
    (existing targets merged queue : List Package) (pack : Package) (e : Error)
    (hmq : (if targets.isEmpty then (existing, existing)
            else mergeAll isDir existing targets) = (merged, queue))
    (hq : pack ∈ queue)
    (hdir : isDir pack.path = false)
    (hclone : clone pack.name pack.path = .error e)
    (hni : ∀ path', e ≠ .pluginInstalled path') :
    install_plugin isDir clone pack = (.error e, false) ∧
    pack.name ∈ taskManagerRun queue (install_plugin isDir clone) ∧
    (∀ r ∈ install_plugins isDir clone existing targets, r.name ≠ pack.name) ∧
    (∀ m : String, m ≠ pack.name →
      (m ∈ taskManagerRun queue (install_plugin isDir clone) ↔
       m ∈ taskManagerRun (queue.filter (fun q => q.name ≠ pack.name))
             (install_plugin isDir clone))) := by
  have hres : install_plugin isDir clone pack = (.error e, false) := by
    have hstat : (match (.error e : Except Error Unit) with
        | .error (.pluginInstalled _) => true
        | .error _ => false
        | .ok _ => true) = false := by
      cases e
      case pluginInstalled p' => exact absurd rfl (hni p')
      all_goals rfl
    simp [install_plugin, do_install, hdir, hclone, hstat]
  have hmem : pack.name ∈ taskManagerRun queue (install_plugin isDir clone) := by
    rw [mem_taskManagerRun]
    exact ⟨pack, hq, rfl, by rw [hres]⟩
  refine ⟨hres, hmem, ?_, ?_⟩
  · intro r hr
    rw [install_plugins_unfold isDir clone existing targets merged queue hmq,
      mem_sortByName, mem_purgeFails] at hr
    exact hr.2 pack.name hmem
  · intro m hm
    rw [mem_taskManagerRun, mem_taskManagerRun]
    constructor
    · rintro ⟨q, hq', hn, hf⟩
      refine ⟨q, List.mem_filter.mpr ⟨hq', by simp [hn, hm]⟩, hn, hf⟩
    · rintro ⟨q, hq', hn, hf⟩
      exact ⟨q, (List.mem_filter.mp hq').1, hn, hf⟩

/-- Witness for C5: a failing clone for the fresh package `bar` purges it
from the final manifest while the other queue entries are unaffected. -/
theorem clone_failure_purges_package_witness :
    install_plugin noDirs cloneFailGit requestQ =
      (.error (.git "network down"), false) ∧
    requestQ.name ∈ taskManagerRun [requestQ] (install_plugin noDirs cloneFailGit) ∧
    (∀ r ∈ install_plugins noDirs cloneFailGit [] [requestQ], r.name ≠ requestQ.name) ∧
    (∀ m : String, m ≠ requestQ.name →
      (m ∈ taskManagerRun [requestQ] (install_plugin noDirs cloneFailGit) ↔
       m ∈ taskManagerRun ([requestQ].filter (fun q => q.name ≠ requestQ.name))
             (install_plugin noDirs cloneFailGit))) :=
  clone_failure_purges_package noDirs cloneFailGit [] [requestQ] [requestQ]
    [requestQ] requestQ (.git "network down") (by decide) (by decide) rfl
    rfl (fun path' h => by simp at h)

/-- Witness for C3: the stale `foo` record adopts the requested category,
opt and trigger attributes wholesale. -/
theorem merge_not_installed_overwrites_existing_witness :
    mergeOne noDirs [installedX] requestQ =
      ([{ installedX with category := "newcat", opt := true,
                          for_types := ["rust"], load_command := some "MyCmd",
                          build_command := some "make" }], requestQ) := by
  have h := merge_not_installed_overwrites_existing noDirs [] installedX []
    requestQ (by simp) rfl rfl
  simpa using h

/-!
## Serialization roundtrip (C6)
-/

theorem except_bind_ok {α β : Type} (a : α) (f : α → Except Error β) :
    (Except.ok a >>= f : Except Error β) = f a := rfl

theorem except_bind_error {α β : Type} (e : Error) (f : α → Except Error β) :
    (Except.error e >>= f : Except Error β) = Except.error e := rfl

theorem parseTypeList_strings (l : List String) :
    parseTypeList (l.map Yaml.string) = .ok l := by
  induction l with
  | nil => rfl
  | cons t ts ih => simp [parseTypeList, Yaml.as_str, ih]

theorem from_yaml_into_yaml (p : Package) (idn : String)
    (h : Package.idname_from_remote p.remote = some idn) :
    Package.from_yaml (Package.into_yaml p) = some (.ok { p with idname := idn }) := by
  obtain ⟨nm, idname, rem, rf, cat, op, lc, ft, bc⟩ := p
  simp only at h
  rcases rf with _ | ⟨k, v⟩ <;> rcases lc with _ | lc <;> rcases bc with _ | bc <;>
    rcases ft with _ | ⟨t, ts⟩ <;> try cases k
  all_goals
    simp only [Package.into_yaml, hashInsert, List.isEmpty_nil, List.isEmpty_cons,
      Package.from_yaml, parseStrField, parseBoolField, parseRef, parseTypes,
      Yaml.idx, lookupStr, Yaml.as_str, Yaml.as_bool, Yaml.as_vec, Yaml.as_hash,
      RefKind.toStr, GitReference.new, String.reduceEq, reduceIte, List.head?,
      except_bind_ok, except_bind_error, parseTypeList_strings]
  all_goals rw [h]

/-- C6 (counterexample to the original claim): a record whose remote has a
single `'/'`-split segment serializes fine, but parsing it back panics in
`idname_from_remote` (`none`), so no equivalent record list is produced. -/
theorem roundtrip_panics_on_slashless_remote :
    Package.from_yaml (Package.into_yaml slashlessPack) = none ∧
    (splitSlash slashlessPack.remote.data).length = 1 := by
  constructor <;> rfl

/-- C6 (amended): for every list of package records whose remotes are
well-formed (at least two `'/'`-separated segments — the precondition
`idname_from_remote` needs to return), serializing each record to the
manifest's structured form and parsing it back succeeds and yields a record
with the same name, remote, category, opt, reference, load_command,
for_types and build_command. -/
theorem into_yaml_from_yaml_roundtrip (ps : List Package)
    (h : ∀ p ∈ ps, 2 ≤ (splitSlash p.remote.data).length) :
    ∀ p ∈ ps, ∃ q, Package.from_yaml (Package.into_yaml p) = some (.ok q) ∧
      q.name = p.name ∧ q.remote = p.remote ∧ q.category = p.category ∧
      q.opt = p.opt ∧ q.reference = p.reference ∧
      q.load_command = p.load_command ∧ q.for_types = p.for_types ∧
      q.build_command = p.build_command := by
  intro p hp
  have hlen := h p hp
  have hidn : ∃ idn, Package.idname_from_remote p.remote = some idn := by
    unfold Package.idname_from_remote
    rw [if_pos hlen]
    exact ⟨_, rfl⟩
  obtain ⟨idn, hidn⟩ := hidn
  exact ⟨{ p with idname := idn }, from_yaml_into_yaml p idn hidn,
    rfl, rfl, rfl, rfl, rfl, rfl, rfl, rfl⟩

/-- Witness for the amended C6 on a record with a reference, a load command
and a well-formed remote. -/
theorem into_yaml_from_yaml_roundtrip_witness :
    ∃ q, Package.from_yaml (Package.into_yaml namedPack) = some (.ok q) ∧
      q.name = namedPack.name ∧ q.remote = namedPack.remote ∧
      q.category = namedPack.category ∧ q.opt = namedPack.opt ∧
      q.reference = namedPack.reference ∧
      q.load_command = namedPack.load_command ∧
      q.for_types = namedPack.for_types ∧
      q.build_command = namedPack.build_command :=
  into_yaml_from_yaml_roundtrip [namedPack] (by decide) namedPack
    (List.mem_singleton.mpr rfl)

/-!
## Manifest load failures (C7)

Every failure inside `from_yaml` is a format error, a missing required field
forces one, and the per-entry loop of `fetch_from_paconfig` aborts the whole
load at the first failing entry.
-/

theorem parseStrField_err (doc : Yaml) (key : String) :
    ∀ e, parseStrField doc key = .error e → e = .format := by
  unfold parseStrField
  cases h : (doc.idx key).as_str <;> intro e he <;> simp_all

theorem parseBoolField_err (doc : Yaml) (key : String) :
    ∀ e, parseBoolField doc key = .error e → e = .format := by
  unfold parseBoolField
  cases h : (doc.idx key).as_bool <;> intro e he <;> simp_all

theorem GitReference_new_err (k v : String) :
    ∀ e, GitReference.new k v = .error e → e = .format := by
  unfold GitReference.new
  split_ifs <;> intro e he <;> simp_all

theorem parseRef_err (doc : Yaml) :
    ∀ e, parseRef doc = .error e → e = .format := by
  intro e he
  unfold parseRef at he
  rcases hh : (doc.idx "ref").as_hash with subdoc | u
  · simp only [hh] at he
    rcases hd : subdoc.head? with _ | ⟨rt, rv⟩
    · simp only [hd] at he
      simpa using he.symm
    · simp only [hd] at he
      rcases hs : rv.as_str with _ | v
      · simp only [hs] at he
        simpa using he.symm
      · simp only [hs] at he
        rcases hn : GitReference.new rt v with e' | r
        · simp only [hn] at he
          have he' : e' = e := by simpa using he
          exact he' ▸ GitReference_new_err rt v e' hn
        · simp only [hn] at he
          simp at he
  · simp only [hh] at he
    simp at he

theorem parseTypeList_err (l : List Yaml) :
    ∀ e, parseTypeList l = .error e → e = .format := by
  induction l with
  | nil => intro e he; exact absurd he (by simp [parseTypeList])
  | cons x rest ih =>
    intro e he
    unfold parseTypeList at he
    rcases hs : x.as_str with _ | s
    · simp only [hs] at he
      simpa using he.symm
    · simp only [hs] at he
      rcases hr : parseTypeList rest with er | l2
      · simp only [hr] at he
        have her : er = e := by simpa using he
        exact her ▸ ih er hr
      · simp only [hr] at he
        simp at he

theorem parseTypes_err (doc : Yaml) :
    ∀ e, parseTypes doc = .error e → e = .format := by
  intro e he
  unfold parseTypes at he
  rcases hv : (doc.idx "for").as_vec with _ | f
  · simp only [hv] at he
    simp at he
  · simp only [hv] at he
    exact parseTypeList_err f e he

theorem parseStrField_ok_as_str (doc : Yaml) (key s : String) :
    parseStrField doc key = .ok s → (doc.idx key).as_str = some s := by
  unfold parseStrField
  cases h : (doc.idx key).as_str <;> simp_all

theorem parseBoolField_ok_as_bool (doc : Yaml) (key : String) (b : Bool) :
    parseBoolField doc key = .ok b → (doc.idx key).as_bool = some b := by
  unfold parseBoolField
  cases h : (doc.idx key).as_bool <;> simp_all

theorem from_yaml_missing_required (doc : Yaml) (hm : missingRequired doc) :
    Package.from_yaml doc = some (.error .format) := by
  rcases h1 : parseStrField doc "name" with e1 | nm
  · rw [parseStrField_err doc "name" e1 h1] at h1
    simp [Package.from_yaml, h1, except_bind_error]
  · rcases h2 : parseStrField doc "remote" with e2 | rem
    · rw [parseStrField_err doc "remote" e2 h2] at h2
      simp [Package.from_yaml, h1, h2, except_bind_ok, except_bind_error]
    · rcases h3 : parseRef doc with e3 | rf
      · rw [parseRef_err doc e3 h3] at h3
        simp [Package.from_yaml, h1, h2, h3, except_bind_ok, except_bind_error]
      · rcases h4 : parseBoolField doc "opt" with e4 | op
        · rw [parseBoolField_err doc "opt" e4 h4] at h4
          simp [Package.from_yaml, h1, h2, h3, h4, except_bind_ok, except_bind_error]
        · rcases h5 : parseStrField doc "category" with e5 | cat
          · rw [parseStrField_err doc "category" e5 h5] at h5
            simp [Package.from_yaml, h1, h2, h3, h4, h5, except_bind_ok,
              except_bind_error]
          · exfalso
            rcases hm with hm | hm | hm | hm
            · rw [parseStrField_ok_as_str doc "name" nm h1] at hm
              exact Option.noConfusion hm
            · rw [parseStrField_ok_as_str doc "remote" rem h2] at hm
              exact Option.noConfusion hm
            · rw [parseBoolField_ok_as_bool doc "opt" op h4] at hm
              exact Option.noConfusion hm
            · rw [parseStrField_ok_as_str doc "category" cat h5] at hm
              exact Option.noConfusion hm

theorem fetch_from_docs_not_ok (docs : List Yaml) (bad : Yaml)
    (hb : bad ∈ docs)
    (hbad : ∀ p, Package.from_yaml bad ≠ some (.ok p)) :
    ∀ l, fetch_from_docs docs ≠ some (.ok l) := by
  induction docs with
  | nil => cases hb
  | cons d rest ih =>
    intro l hl
    unfold fetch_from_docs at hl
    rcases hf : Package.from_yaml d with _ | ep
    · rw [hf] at hl
      exact Option.noConfusion hl
    · rcases ep with e | p
      · rw [hf] at hl
        simp at hl
      · rcases List.mem_cons.mp hb with hd | hd
        · exact hbad p (hd ▸ hf)
        · rw [hf] at hl
          rcases hr : fetch_from_docs rest with _ | er
          · rw [hr] at hl
            simp at hl
          · rcases er with e | ps
            · rw [hr] at hl
              simp at hl
            · exact ih hd ps hr

theorem fetch_from_docs_prefix_ok (pre post : List Yaml) (bad : Yaml)
    (hpre : ∀ y ∈ pre, ∃ p, Package.from_yaml y = some (.ok p))
    (hbad : Package.from_yaml bad = some (.error .format)) :
    fetch_from_docs (pre ++ bad :: post) = some (.error .format) := by
  induction pre with
  | nil => simp [fetch_from_docs, hbad]
  | cons y pre' ih =>
    obtain ⟨p, hy⟩ := hpre y (List.mem_cons_self y pre')
    have hpre' : ∀ z ∈ pre', ∃ q, Package.from_yaml z = some (.ok q) :=
      fun z hz => hpre z (List.mem_cons_of_mem y hz)
    simp [fetch_from_docs, hy, ih hpre']

/-- C7: loading the manifest returns the empty list (not an error) when no
manifest file exists; when the file exists and any single entry lacks a
required field (`name`, `remote`, `opt` or `category`), the whole load
aborts — no partial record list is ever returned — and with the well-parsed
entries first, the load surfaces exactly the wrapped format error that the
missing field produced. -/
theorem fetch_missing_required_field_aborts :
    (fetch none = some (.ok [])) ∧
    (∀ (entries docs' : List Yaml) (bad : Yaml), bad ∈ entries →
      missingRequired bad →
      ∀ l, fetch (some (.ok (Yaml.array entries :: docs'))) ≠ some (.ok l)) ∧
    (∀ (pre post docs' : List Yaml) (bad : Yaml), missingRequired bad →
      (∀ y ∈ pre, ∃ p, Package.from_yaml y = some (.ok p)) →
      fetch (some (.ok (Yaml.array (pre ++ bad :: post) :: docs'))) =
        some (.error (wrapPaconfig .format))) := by
  refine ⟨rfl, ?_, ?_⟩
  · intro entries docs' bad hb hm l hl
    have hbad : ∀ p, Package.from_yaml bad ≠ some (.ok p) := by
      intro p hp
      rw [from_yaml_missing_required bad hm] at hp
      simp at hp
    simp only [fetch, fetch_from_paconfig, Yaml.as_vec] at hl
    rcases hr : fetch_from_docs entries with _ | er
    · rw [hr] at hl
      exact Option.noConfusion hl
    · rcases er with e | ps
      · rw [hr] at hl
        simp at hl
      · exact fetch_from_docs_not_ok entries bad hb hbad ps hr
  · intro pre post docs' bad hm hpre
    have hbad := from_yaml_missing_required bad hm
    simp [fetch, fetch_from_paconfig, Yaml.as_vec,
      fetch_from_docs_prefix_ok pre post bad hpre hbad]

/-- Witness for C7: a one-entry manifest whose entry has a remote but no
name aborts the load with the wrapped format error. -/
theorem fetch_missing_required_field_aborts_witness :
    fetch (some (.ok [Yaml.array [namelessEntry]])) =
      some (.error (wrapPaconfig .format)) :=
  fetch_missing_required_field_aborts.2.2 [] [] [] namelessEntry
    (Or.inl rfl) (fun y hy => absurd hy (List.not_mem_nil y))

end Pac
